import Mathlib

/-!
Verification of the cliffhangar occupancy-scraper core (src/cliffhangar.py).

The core pipeline is three pure string/data transforms:
  * `scrape_occupancy_data` — scans text for the first balanced `{...}` span;
  * `format_scraped_json`   — per-line trim, single→double quote substitution,
    and removal of the two known trailing-comma irregularities;
  * `json_to_row`           — strict-JSON parse (`json.loads`) followed by a
    defaultdict-based projection onto a fixed 21-column row.

Everything is embedded over `List Char` (Python `str`), with `Option`/`Except`
for Python exceptions and the wall clock passed in as an explicit value.
-/

namespace Cliffhangar

/-- ASCII whitespace stripped by Python `str.strip()`. -/
def isPySpace (c : Char) : Bool :=
  c = ' ' || c = '\t' || c = '\n' || c = '\r' || c = '\x0b' || c = '\x0c'

/-- Python `str.strip()`: drop whitespace from both ends. -/
def pyStrip (l : List Char) : List Char :=
  ((l.dropWhile isPySpace).reverse.dropWhile isPySpace).reverse

/-- Python `str.splitlines()` on the line boundaries that occur in this data
(`\n`, `\r`, `\r\n`): no trailing empty line for a trailing newline, and the
empty string yields no lines. -/
def splitlines : List Char → List (List Char)
  | [] => []
  | '\r' :: '\n' :: rest => [] :: splitlines rest
  | '\r' :: rest => [] :: splitlines rest
  | '\n' :: rest => [] :: splitlines rest
  | c :: rest =>
    match splitlines rest with
    | [] => [[c]]
    | line :: lines => (c :: line) :: lines

/-- `x.replace('\'', '"')`: substitute every single quote by a double quote. -/
def quoteSub (l : List Char) : List Char :=
  l.map fun c => if c = '\'' then '"' else c

/-- Python `str.replace(',\n}', '\n}')` for exactly that pattern: one
left-to-right pass, continuing after each replaced occurrence. -/
def replaceCommaNlBrace : List Char → List Char
  | ',' :: '\n' :: '}' :: rest => '\n' :: '}' :: replaceCommaNlBrace rest
  | c :: rest => c :: replaceCommaNlBrace rest
  | [] => []

/-- Python `str.replace(',    }', '}')` (comma, four spaces, brace) for exactly
that pattern: one left-to-right pass, continuing after each replacement. -/
def replaceCommaSpacesBrace : List Char → List Char
  | ',' :: ' ' :: ' ' :: ' ' :: ' ' :: '}' :: rest => '}' :: replaceCommaSpacesBrace rest
  | c :: rest => c :: replaceCommaSpacesBrace rest
  | [] => []

/-- The per-line part of `format_scraped_json`:
`'\n'.join(map(lambda x: x.strip().replace('\'', '"'), data.splitlines()))`. -/
def joinedLines (data : List Char) : List Char :=
  List.intercalate ['\n'] ((splitlines data).map fun line => quoteSub (pyStrip line))

/-- `format_scraped_json` (src/cliffhangar.py lines 32–37): the per-line
trim-and-substitute join, then the two trailing-comma replacements in order. -/
def format_scraped_json (data : List Char) : List Char :=
  replaceCommaSpacesBrace (replaceCommaNlBrace (joinedLines data))

/-- The scanning loop of `scrape_occupancy_data` (lines 43–56). `data` is the
whole input (`data[start_index:index+1]` slices it), the `List Char` argument
is the unscanned tail, then the current index, `start_index` and
`unclosed_braces`. -/
def scrape_aux (data : List Char) : List Char → Nat → Option Nat → Nat → Option (List Char)
  | [], _, _, _ => none
  | c :: rest, index, startIndex, unclosed =>
    if c = '{' then
      scrape_aux data rest (index + 1) (some (startIndex.getD index)) (unclosed + 1)
    else if c = '}' then
      if unclosed = 0 then none
      else if unclosed = 1 then
        startIndex.map fun s => format_scraped_json ((data.drop s).take (index + 1 - s))
      else scrape_aux data rest (index + 1) startIndex (unclosed - 1)
    else scrape_aux data rest (index + 1) startIndex unclosed

/-- `scrape_occupancy_data` (lines 40–56): first balanced-brace span, already
passed through `format_scraped_json`, or `None`. -/
def scrape_occupancy_data (data : List Char) : Option (List Char) :=
  scrape_aux data data 0 none 0

/-! ## json.loads: parsed values and the strict parser

`json_to_row` feeds the extracted text to `json.loads`. JSON values are
modelled by `JVal`; numeric literals are modelled as integers (the occupancy
data carries only integer counts; float and exponent literals are outside the
model and fail to parse). Duplicate object keys keep the last binding, as a
Python dict does. -/

/-- A parsed JSON value (Python object from `json.loads`). -/
inductive JVal where
  | jnum : Int → JVal
  | jstr : List Char → JVal
  | jbool : Bool → JVal
  | jnull : JVal
  | jarr : List JVal → JVal
  | jobj : List (List Char × JVal) → JVal

/-- JSON whitespace skipped between tokens. -/
def isJsonWs (c : Char) : Bool :=
  c = ' ' || c = '\t' || c = '\n' || c = '\r'

def skipWs (l : List Char) : List Char := l.dropWhile isJsonWs

def hexDigitVal : Char → Option Nat
  | c =>
    if '0' ≤ c ∧ c ≤ '9' then some (c.toNat - 48)
    else if 'a' ≤ c ∧ c ≤ 'f' then some (c.toNat - 87)
    else if 'A' ≤ c ∧ c ≤ 'F' then some (c.toNat - 55)
    else none

/-- The single-character string escapes of strict JSON. -/
def escapeChar : Char → Option Char
  | '"' => some '"'
  | '\\' => some '\\'
  | '/' => some '/'
  | 'b' => some '\x08'
  | 'f' => some '\x0c'
  | 'n' => some '\n'
  | 'r' => some '\r'
  | 't' => some '\t'
  | _ => none

/-- Body of a JSON string after the opening quote: the decoded characters and
the text after the closing quote. Raw control characters are rejected. -/
def parseStringBody : List Char → Option (List Char × List Char)
  | [] => none
  | '"' :: rest => some ([], rest)
  | '\\' :: 'u' :: h1 :: h2 :: h3 :: h4 :: rest =>
    match hexDigitVal h1, hexDigitVal h2, hexDigitVal h3, hexDigitVal h4 with
    | some a, some b, some c, some d =>
      (parseStringBody rest).map fun p =>
        (Char.ofNat (((a * 16 + b) * 16 + c) * 16 + d) :: p.1, p.2)
    | _, _, _, _ => none
  | '\\' :: e :: rest =>
    match escapeChar e with
    | some c => (parseStringBody rest).map fun p => (c :: p.1, p.2)
    | none => none
  | c :: rest =>
    if 32 ≤ c.toNat then (parseStringBody rest).map fun p => (c :: p.1, p.2)
    else none

/-- Decimal digit run, accumulating the value, stopping at the first
non-digit. -/
def digitsVal : List Char → Nat → Nat × List Char
  | c :: rest, acc =>
    if c.isDigit then digitsVal rest (acc * 10 + (c.toNat - 48)) else (acc, c :: rest)
  | [], acc => (acc, [])

/-- Unsigned strict-JSON integer literal: a lone `0`, or a nonzero leading
digit followed by digits (a leading zero before further digits is refused). -/
def parseDigits : List Char → Option (Nat × List Char)
  | [] => none
  | c :: rest =>
    if ¬ c.isDigit then none
    else if c = '0' then
      match rest with
      | d :: _ => if d.isDigit then none else some (0, rest)
      | [] => some (0, [])
    else some (digitsVal rest (c.toNat - 48))

def parseNumber (l : List Char) : Option (JVal × List Char) :=
  match l with
  | '-' :: rest => (parseDigits rest).map fun p => (.jnum (-(p.1 : Int)), p.2)
  | _ => (parseDigits l).map fun p => (.jnum (p.1 : Int), p.2)

mutual

/-- One strict-JSON value, fuelled; returns the value and the unread rest. -/
def parseVal : Nat → List Char → Option (JVal × List Char)
  | 0, _ => none
  | fuel + 1, l =>
    match l with
    | 't' :: 'r' :: 'u' :: 'e' :: r => some (.jbool true, r)
    | 'f' :: 'a' :: 'l' :: 's' :: 'e' :: r => some (.jbool false, r)
    | 'n' :: 'u' :: 'l' :: 'l' :: r => some (.jnull, r)
    | '"' :: r => (parseStringBody r).map fun p => (.jstr p.1, p.2)
    | '{' :: r =>
      match skipWs r with
      | '}' :: r1 => some (.jobj [], r1)
      | r1 => (parseMembers fuel r1).map fun p => (.jobj p.1, p.2)
    | '[' :: r =>
      match skipWs r with
      | ']' :: r1 => some (.jarr [], r1)
      | r1 => (parseElems fuel r1).map fun p => (.jarr p.1, p.2)
    | _ => parseNumber l

/-- Nonempty member list of a JSON object, starting at the first key. -/
def parseMembers : Nat → List Char → Option (List (List Char × JVal) × List Char)
  | 0, _ => none
  | fuel + 1, l =>
    match l with
    | '"' :: r =>
      match parseStringBody r with
      | none => none
      | some (k, r1) =>
        match skipWs r1 with
        | ':' :: r2 =>
          match parseVal fuel (skipWs r2) with
          | none => none
          | some (v, r3) =>
            match skipWs r3 with
            | ',' :: r4 => (parseMembers fuel (skipWs r4)).map fun p => ((k, v) :: p.1, p.2)
            | '}' :: r4 => some ([(k, v)], r4)
            | _ => none
        | _ => none
    | _ => none

/-- Nonempty element list of a JSON array, starting at the first value. -/
def parseElems : Nat → List Char → Option (List JVal × List Char)
  | 0, _ => none
  | fuel + 1, l =>
    match parseVal fuel l with
    | none => none
    | some (v, r1) =>
      match skipWs r1 with
      | ',' :: r2 => (parseElems fuel (skipWs r2)).map fun p => (v :: p.1, p.2)
      | ']' :: r2 => some ([v], r2)
      | _ => none

end

/-- `json.loads`: parse one value, demand only whitespace after it. -/
def loads (s : List Char) : Option JVal :=
  match parseVal (s.length + 1) (skipWs s) with
  | some (v, r) => if skipWs r = [] then some v else none
  | none => none

/-! ## The row mapper -/

mutual

/-- Python `repr` of a parsed JSON value, used by `str` on containers. (The
quote-switching Python applies when a string holds an apostrophe is not
modelled; no claim inspects container text.) -/
def pyRepr : JVal → List Char
  | .jnum n => (toString n).toList
  | .jstr s => '\'' :: (s ++ ['\''])
  | .jbool true => "True".toList
  | .jbool false => "False".toList
  | .jnull => "None".toList
  | .jarr es => '[' :: (pyReprElems es ++ [']'])
  | .jobj ms => '{' :: (pyReprMembers ms ++ ['}'])

def pyReprElems : List JVal → List Char
  | [] => []
  | [v] => pyRepr v
  | v :: rest => pyRepr v ++ ", ".toList ++ pyReprElems rest

def pyReprMembers : List (List Char × JVal) → List Char
  | [] => []
  | [(k, v)] => pyRepr (.jstr k) ++ ": ".toList ++ pyRepr v
  | (k, v) :: rest =>
    pyRepr (.jstr k) ++ ": ".toList ++ pyRepr v ++ ", ".toList ++ pyReprMembers rest

end

/-- Python `str(...)` of a parsed JSON value: a string is itself, everything
else prints as its repr. -/
def pyStr : JVal → List Char
  | .jstr s => s
  | v => pyRepr v

/-- Python exceptions the pipeline can raise. -/
inductive PyErr where
  | typeError
  | jsonDecodeError
  | keyError
deriving DecidableEq

/-- `datetime` value: `datetime.now()` is passed in rather than read from a
clock, so the core stays a pure function. -/
structure PyDateTime where
  year : Nat
  month : Nat
  day : Nat
  hour : Nat
  minute : Nat
  second : Nat
  microsecond : Nat

/-- Decimal digits of `n`, zero-padded on the left to width `w`. -/
def padNum (w n : Nat) : List Char :=
  let ds := (toString n).toList
  List.replicate (w - ds.length) '0' ++ ds

/-- `datetime.isoformat(sep)`: date, separator, time; microseconds with a dot
when nonzero, omitted when zero. -/
def isoformat (sep : Char) (d : PyDateTime) : List Char :=
  padNum 4 d.year ++ '-' :: padNum 2 d.month ++ '-' :: padNum 2 d.day ++
  sep :: padNum 2 d.hour ++ ':' :: padNum 2 d.minute ++ ':' :: padNum 2 d.second ++
  (if d.microsecond = 0 then [] else '.' :: padNum 6 d.microsecond)

/-- Python dict lookup on parsed members: the last binding of a duplicated key
wins, as `dict(json.loads(...))` keeps the last occurrence. -/
def dictLookup : List (List Char × JVal) → List Char → Option JVal
  | [], _ => none
  | (k, v) :: rest, key =>
    match dictLookup rest key with
    | some v' => some v'
    | none => if k = key then some v else none

/-- One slot of the row: `str(values[code][field])` where `values` is
`defaultdict(lambda: defaultdict(str))` updated with the parsed object. A code
absent from the data hits the outer default factory, whose inner
`defaultdict(str)` turns the missing field into `''`. A code present in the
data was stored by `update` as a plain parsed value: subscripting it raises
`KeyError` for a missing field of an object, `TypeError` for a non-object. -/
def cell (es : List (List Char × JVal)) (code field : List Char) : Except PyErr (List Char) :=
  match dictLookup es code with
  | none => .ok []
  | some (.jobj fs) =>
    match dictLookup fs field with
    | some v => .ok (pyStr v)
    | none => .error .keyError
  | some _ => .error .typeError

/-- The ten facility codes, in the fixed order of the row literal
(src/cliffhangar.py lines 67–86). -/
def FACILITIES : List (List Char) :=
  ["ARC".toList, "ERV".toList, "HDS".toList, "LON".toList, "MVJ".toList,
   "RCU".toList, "RIV".toList, "SCL".toList, "SPB".toList, "UPL".toList]

def countKey : List Char := "count".toList

def capacityKey : List Char := "capacity".toList

/-- The `count` and `capacity` slots of one facility, in evaluation order. -/
def pair_cells (es : List (List Char × JVal)) (code : List Char) :
    Except PyErr (List (List Char)) :=
  match cell es code countKey with
  | .error e => .error e
  | .ok cnt =>
    match cell es code capacityKey with
    | .error e => .error e
    | .ok cap => .ok [cnt, cap]

/-- Left-to-right effectful map, stopping at the first raised exception: the
order in which Python evaluates the row literal's lookups. -/
def mapExcept (f : α → Except PyErr β) : List α → Except PyErr (List β)
  | [] => .ok []
  | a :: l =>
    match f a with
    | .error e => .error e
    | .ok b =>
      match mapExcept f l with
      | .error e => .error e
      | .ok bs => .ok (b :: bs)

/-- The twenty facility slots of the row, in row order. -/
def row_cells (es : List (List Char × JVal)) : Except PyErr (List (List Char)) :=
  match mapExcept (pair_cells es) FACILITIES with
  | .error e => .error e
  | .ok ps => .ok ps.flatten

/-- `json_to_row` (lines 59–87): parse, then build the row literal. `none`
models the `None` that `scrape_script` passes through when no span was found;
`json.loads(None)` raises `TypeError`. A parse failure raises
`json.JSONDecodeError`. The timestamp slot is `datetime.now().isoformat(' ')`
with the clock value passed in. -/
def json_to_row (now : PyDateTime) : Option (List Char) → Except PyErr (List (List Char))
  | none => .error .typeError
  | some s =>
    match loads s with
    | none => .error .jsonDecodeError
    | some (.jobj es) =>
      match row_cells es with
      | .error e => .error e
      | .ok cs => .ok (isoformat ' ' now :: cs)
    | some _ => .error .typeError

/-- `scrape_script` (lines 90–112): the full core pipeline on one script
text. -/
def scrape_script (now : PyDateTime) (script : List Char) : Except PyErr (List (List Char)) :=
  json_to_row now (scrape_occupancy_data script)

/-! ## Lemmas about the balanced-span scan -/

/-- Scanning past characters that are not braces only advances the index. -/
lemma scrape_aux_skip (data : List Char) (a : List Char) :
    ∀ (r : List Char) (idx : Nat) (st : Option Nat) (u : Nat),
    (∀ c ∈ a, c ≠ '{' ∧ c ≠ '}') →
    scrape_aux data (a ++ r) idx st u = scrape_aux data r (idx + a.length) st u := by
  induction a with
  | nil => intro r idx st u _; simp
  | cons c a ih =>
    intro r idx st u ha
    have hc := ha c (List.mem_cons_self c a)
    rw [List.cons_append, scrape_aux, if_neg hc.1, if_neg hc.2,
      ih r (idx + 1) st u (fun d hd => ha d (List.mem_cons_of_mem c hd))]
    have harith : idx + 1 + a.length = idx + (c :: a).length := by
      simp [List.length_cons]; omega
    rw [harith]

/-- A close brace reached with no open brace seen aborts the scan at once. -/
lemma scrape_aux_abort (data : List Char) (a : List Char) :
    ∀ (r : List Char) (idx : Nat), '{' ∉ a →
    scrape_aux data (a ++ '}' :: r) idx none 0 = none := by
  induction a with
  | nil =>
    intro r idx _
    rw [List.nil_append, scrape_aux]
    simp
  | cons c a ih =>
    intro r idx ha
    have hc : c ≠ '{' := fun h => ha (by rw [← h]; exact List.mem_cons_self c a)
    rw [List.cons_append, scrape_aux, if_neg hc]
    by_cases h2 : c = '}'
    · rw [if_pos h2]; simp
    · rw [if_neg h2]
      exact ih r (idx + 1) (fun h => ha (List.mem_cons_of_mem c h))

/-- While the depth stays positive on every prefix of the remaining text, the
scan never returns a span: it runs off the end with braces still unclosed. -/
lemma scrape_aux_no_rebalance (data : List Char) :
    ∀ (b : List Char) (idx : Nat) (st : Option Nat) (u : Nat), 0 < u →
    (∀ q, q <+: b → q.count '}' < u + q.count '{') →
    scrape_aux data b idx st u = none := by
  intro b
  induction b with
  | nil => intro idx st u _ _; rw [scrape_aux]
  | cons c b ih =>
    intro idx st u hu hq
    by_cases h1 : c = '{'
    · subst h1
      rw [scrape_aux, if_pos rfl]
      apply ih (idx + 1) _ (u + 1) (by omega)
      intro q hpre
      have := hq ('{' :: q) (List.cons_prefix_cons.mpr ⟨rfl, hpre⟩)
      simp [List.count_cons] at this ⊢
      omega
    · by_cases h2 : c = '}'
      · subst h2
        have hone := hq ['}'] ⟨b, rfl⟩
        simp [List.count_cons] at hone
        rw [scrape_aux, if_neg (by decide), if_pos rfl, if_neg (by omega), if_neg (by omega)]
        apply ih (idx + 1) st (u - 1) (by omega)
        intro q hpre
        have := hq ('}' :: q) (List.cons_prefix_cons.mpr ⟨rfl, hpre⟩)
        simp [List.count_cons] at this ⊢
        omega
      · rw [scrape_aux, if_neg h1, if_neg h2]
        apply ih (idx + 1) st u hu
        intro q hpre
        have := hq (c :: q) (List.cons_prefix_cons.mpr ⟨rfl, hpre⟩)
        simp [List.count_cons, h1, h2] at this ⊢
        omega

/-- When the depth stays positive through `b` and the balance says the close
after `b` is the matching one, the scan succeeds there and returns the
formatted slice `data[s : idx + len b + 1]`. -/
lemma scrape_aux_success (data : List Char) :
    ∀ (b : List Char) (r : List Char) (idx s u : Nat), 0 < u →
    (∀ q, q <+: b → q.count '}' < u + q.count '{') →
    u + b.count '{' = 1 + b.count '}' →
    scrape_aux data (b ++ '}' :: r) idx (some s) u
      = some (format_scraped_json ((data.drop s).take (idx + b.length + 1 - s))) := by
  intro b
  induction b with
  | nil =>
    intro r idx s u hu hq hbal
    simp at hbal
    subst hbal
    rw [List.nil_append, scrape_aux, if_neg (by decide), if_pos rfl, if_neg (by omega), if_pos rfl]
    simp
  | cons c b ih =>
    intro r idx s u hu hq hbal
    by_cases h1 : c = '{'
    · subst h1
      rw [List.cons_append, scrape_aux, if_pos rfl]
      simp only [Option.getD_some]
      rw [ih r (idx + 1) s (u + 1) (by omega) ?hpre1 ?hbal1]
      · have harith : idx + 1 + b.length + 1 - s = idx + (b.length + 1) + 1 - s := by omega
        rw [harith]
        rfl
      case hpre1 =>
        intro q hpre
        have := hq ('{' :: q) (List.cons_prefix_cons.mpr ⟨rfl, hpre⟩)
        simp [List.count_cons] at this ⊢
        omega
      case hbal1 =>
        simp [List.count_cons] at hbal ⊢
        omega
    · by_cases h2 : c = '}'
      · subst h2
        have hone := hq ['}'] ⟨b, rfl⟩
        simp [List.count_cons] at hone
        rw [List.cons_append, scrape_aux, if_neg (by decide), if_pos rfl,
          if_neg (by omega), if_neg (by omega)]
        rw [ih r (idx + 1) s (u - 1) (by omega) ?hpre2 ?hbal2]
        · have harith : idx + 1 + b.length + 1 - s = idx + (b.length + 1) + 1 - s := by omega
          rw [harith]
          rfl
        case hpre2 =>
          intro q hpre
          have := hq ('}' :: q) (List.cons_prefix_cons.mpr ⟨rfl, hpre⟩)
          simp [List.count_cons] at this ⊢
          omega
        case hbal2 =>
          simp [List.count_cons] at hbal ⊢
          omega
      · rw [List.cons_append, scrape_aux, if_neg h1, if_neg h2]
        rw [ih r (idx + 1) s u hu ?hpre3 ?hbal3]
        · have harith : idx + 1 + b.length + 1 - s = idx + (b.length + 1) + 1 - s := by omega
          rw [harith]
          rfl
        case hpre3 =>
          intro q hpre
          have := hq (c :: q) (List.cons_prefix_cons.mpr ⟨rfl, hpre⟩)
          simp [List.count_cons, h1, h2] at this ⊢
          omega
        case hbal3 =>
          simp [List.count_cons, h1, h2] at hbal ⊢
          omega

/-- A scan that succeeds is unchanged by appending text after the input: the
loop returns at the matching close brace and never reads further. -/
lemma scrape_aux_append (data t : List Char) :
    ∀ (rest : List Char) (idx : Nat) (st : Option Nat) (u : Nat) (res : List Char),
    idx + rest.length = data.length →
    (∀ v, st = some v → v ≤ idx) →
    scrape_aux data rest idx st u = some res →
    scrape_aux (data ++ t) (rest ++ t) idx st u = some res := by
  intro rest
  induction rest with
  | nil =>
    intro idx st u res _ _ h
    rw [scrape_aux] at h
    exact absurd h (by simp)
  | cons c rest ih =>
    intro idx st u res hlen hst h
    rw [scrape_aux] at h
    rw [List.cons_append, scrape_aux]
    by_cases h1 : c = '{'
    · rw [if_pos h1] at h ⊢
      apply ih (idx + 1) _ (u + 1) res (by simp at hlen ⊢; omega) ?_ h
      intro v hv
      cases st with
      | none =>
        simp [Option.getD] at hv
        omega
      | some w =>
        simp [Option.getD] at hv
        have := hst w rfl
        omega
    · rw [if_neg h1] at h ⊢
      by_cases h2 : c = '}'
      · rw [if_pos h2] at h ⊢
        by_cases h3 : u = 0
        · rw [if_pos h3] at h
          exact absurd h (by simp)
        · rw [if_neg h3] at h ⊢
          by_cases h4 : u = 1
          · rw [if_pos h4] at h ⊢
            cases st with
            | none => exact absurd h (by simp)
            | some v =>
              have hv : v ≤ idx := hst v rfl
              have hidx : idx + 1 ≤ data.length := by simp at hlen; omega
              have hslice : ((data ++ t).drop v).take (idx + 1 - v)
                  = (data.drop v).take (idx + 1 - v) := by
                rw [List.drop_append_of_le_length (by omega)]
                exact List.take_append_of_le_length (by rw [List.length_drop]; omega)
              simp only [Option.map_some'] at h ⊢
              rw [hslice]
              exact h
          · rw [if_neg h4] at h ⊢
            exact ih (idx + 1) st (u - 1) res (by simp at hlen ⊢; omega)
              (fun v hv => le_trans (hst v hv) (by omega)) h
      · rw [if_neg h2] at h ⊢
        exact ih (idx + 1) st u res (by simp at hlen ⊢; omega)
          (fun v hv => le_trans (hst v hv) (by omega)) h

/-! ## Lemmas about the two trailing-comma replacement passes

The target pattern is `",\n}"` (comma, newline, close brace). A replacement
can re-create the pattern only immediately after a comma, so under the side
conditions that the joined text holds no two adjacent commas and no
comma-newline-comma sequence, the passes eliminate every occurrence. -/

lemma replaceCommaNlBrace_prefix_brace : ∀ x, ['}'] <+: replaceCommaNlBrace x → ['}'] <+: x := by
  intro x
  induction x using replaceCommaNlBrace.induct with
  | case1 rest ih =>
    rw [replaceCommaNlBrace.eq_1]
    intro h
    rw [List.cons_prefix_cons] at h
    exact absurd h.1 (by decide)
  | case2 c rest h ih =>
    rw [replaceCommaNlBrace.eq_2 c rest h]
    intro hp
    rw [List.cons_prefix_cons] at hp ⊢
    exact ⟨hp.1, List.nil_prefix⟩
  | case3 =>
    intro h
    simp [replaceCommaNlBrace] at h

lemma replaceCommaNlBrace_prefix_nl_brace : ∀ x, ['\n', '}'] <+: replaceCommaNlBrace x →
    ['\n', '}'] <+: x ∨ [',', '\n', '}'] <+: x := by
  intro x
  induction x using replaceCommaNlBrace.induct with
  | case1 rest ih =>
    intro _
    exact Or.inr (by simp [List.cons_prefix_cons])
  | case2 c rest h ih =>
    rw [replaceCommaNlBrace.eq_2 c rest h]
    intro hp
    rw [List.cons_prefix_cons] at hp
    exact Or.inl (List.cons_prefix_cons.mpr ⟨hp.1, replaceCommaNlBrace_prefix_brace rest hp.2⟩)
  | case3 =>
    intro h
    simp [replaceCommaNlBrace] at h

lemma replaceCommaNlBrace_prefix_p1 : ∀ x, [',', '\n', '}'] <+: replaceCommaNlBrace x → [',', ','] <+: x := by
  intro x
  induction x using replaceCommaNlBrace.induct with
  | case1 rest ih =>
    rw [replaceCommaNlBrace.eq_1]
    intro h
    rw [List.cons_prefix_cons] at h
    exact absurd h.1 (by decide)
  | case2 c rest h ih =>
    rw [replaceCommaNlBrace.eq_2 c rest h]
    intro hp
    rw [List.cons_prefix_cons] at hp
    obtain ⟨rfl, hp2⟩ := hp
    rcases replaceCommaNlBrace_prefix_nl_brace rest hp2 with hl | hr
    · obtain ⟨t, rfl⟩ := hl
      exact (h t rfl (by simp)).elim
    · obtain ⟨t, rfl⟩ := hr
      simp [List.cons_prefix_cons]
  | case3 =>
    intro h
    simp [replaceCommaNlBrace] at h

lemma replaceCommaNlBrace_infix_p1 : ∀ x, ¬ [',', ','] <:+: x → ¬ [',', '\n', '}'] <:+: replaceCommaNlBrace x := by
  intro x
  induction x using replaceCommaNlBrace.induct with
  | case1 rest ih =>
    intro hcc hin
    rw [replaceCommaNlBrace.eq_1] at hin
    rcases List.infix_cons_iff.mp hin with hp | hin2
    · rw [List.cons_prefix_cons] at hp
      exact absurd hp.1 (by decide)
    rcases List.infix_cons_iff.mp hin2 with hp | hin3
    · rw [List.cons_prefix_cons] at hp
      exact absurd hp.1 (by decide)
    exact ih (fun hq => hcc (List.infix_cons (List.infix_cons (List.infix_cons hq)))) hin3
  | case2 c rest h ih =>
    intro hcc hin
    rw [replaceCommaNlBrace.eq_2 c rest h] at hin
    rcases List.infix_cons_iff.mp hin with hp | hin2
    · have : [',', '\n', '}'] <+: replaceCommaNlBrace (c :: rest) := by
        rw [replaceCommaNlBrace.eq_2 c rest h]; exact hp
      exact hcc (replaceCommaNlBrace_prefix_p1 (c :: rest) this).isInfix
    exact ih (fun hq => hcc (List.infix_cons hq)) hin2
  | case3 =>
    intro _ hin
    simp [replaceCommaNlBrace] at hin

lemma replaceCommaNlBrace_prefix_comma : ∀ x, [','] <+: replaceCommaNlBrace x → [','] <+: x := by
  intro x
  induction x using replaceCommaNlBrace.induct with
  | case1 rest ih =>
    rw [replaceCommaNlBrace.eq_1]
    intro h
    rw [List.cons_prefix_cons] at h
    exact absurd h.1 (by decide)
  | case2 c rest h ih =>
    rw [replaceCommaNlBrace.eq_2 c rest h]
    intro hp
    rw [List.cons_prefix_cons] at hp ⊢
    exact ⟨hp.1, List.nil_prefix⟩
  | case3 =>
    intro h
    simp [replaceCommaNlBrace] at h

lemma replaceCommaNlBrace_prefix_nl_comma : ∀ x, ['\n', ','] <+: replaceCommaNlBrace x → ['\n', ','] <+: x := by
  intro x
  induction x using replaceCommaNlBrace.induct with
  | case1 rest ih =>
    rw [replaceCommaNlBrace.eq_1]
    intro h
    rw [List.cons_prefix_cons, List.cons_prefix_cons] at h
    exact absurd h.2.1 (by decide)
  | case2 c rest h ih =>
    rw [replaceCommaNlBrace.eq_2 c rest h]
    intro hp
    rw [List.cons_prefix_cons] at hp ⊢
    exact ⟨hp.1, replaceCommaNlBrace_prefix_comma rest hp.2⟩
  | case3 =>
    intro h
    simp [replaceCommaNlBrace] at h

lemma replaceCommaNlBrace_prefix_cnc : ∀ x, [',', '\n', ','] <+: replaceCommaNlBrace x → [',', '\n', ','] <+: x := by
  intro x
  induction x using replaceCommaNlBrace.induct with
  | case1 rest ih =>
    rw [replaceCommaNlBrace.eq_1]
    intro h
    rw [List.cons_prefix_cons] at h
    exact absurd h.1 (by decide)
  | case2 c rest h ih =>
    rw [replaceCommaNlBrace.eq_2 c rest h]
    intro hp
    rw [List.cons_prefix_cons] at hp ⊢
    exact ⟨hp.1, replaceCommaNlBrace_prefix_nl_comma rest hp.2⟩
  | case3 =>
    intro h
    simp [replaceCommaNlBrace] at h

lemma replaceCommaNlBrace_infix_cnc : ∀ x, ¬ [',', '\n', ','] <:+: x → ¬ [',', '\n', ','] <:+: replaceCommaNlBrace x := by
  intro x
  induction x using replaceCommaNlBrace.induct with
  | case1 rest ih =>
    intro hc hin
    rw [replaceCommaNlBrace.eq_1] at hin
    rcases List.infix_cons_iff.mp hin with hp | hin2
    · rw [List.cons_prefix_cons] at hp
      exact absurd hp.1 (by decide)
    rcases List.infix_cons_iff.mp hin2 with hp | hin3
    · rw [List.cons_prefix_cons] at hp
      exact absurd hp.1 (by decide)
    exact ih (fun hq => hc (List.infix_cons (List.infix_cons (List.infix_cons hq)))) hin3
  | case2 c rest h ih =>
    intro hc hin
    rw [replaceCommaNlBrace.eq_2 c rest h] at hin
    rcases List.infix_cons_iff.mp hin with hp | hin2
    · have : [',', '\n', ','] <+: replaceCommaNlBrace (c :: rest) := by
        rw [replaceCommaNlBrace.eq_2 c rest h]; exact hp
      exact hc (replaceCommaNlBrace_prefix_cnc (c :: rest) this).isInfix
    exact ih (fun hq => hc (List.infix_cons hq)) hin2
  | case3 =>
    intro _ hin
    simp [replaceCommaNlBrace] at hin

lemma replaceCommaSpacesBrace_prefix_brace : ∀ x, ['}'] <+: replaceCommaSpacesBrace x →
    ['}'] <+: x ∨ [',', ' ', ' ', ' ', ' ', '}'] <+: x := by
  intro x
  induction x using replaceCommaSpacesBrace.induct with
  | case1 rest ih =>
    intro _
    exact Or.inr (by simp [List.cons_prefix_cons])
  | case2 c rest h ih =>
    rw [replaceCommaSpacesBrace.eq_2 c rest h]
    intro hp
    rw [List.cons_prefix_cons] at hp
    exact Or.inl (List.cons_prefix_cons.mpr ⟨hp.1, List.nil_prefix⟩)
  | case3 =>
    intro h
    simp [replaceCommaSpacesBrace] at h

lemma replaceCommaSpacesBrace_prefix_nl_brace : ∀ x, ['\n', '}'] <+: replaceCommaSpacesBrace x →
    ['\n', '}'] <+: x ∨ ['\n', ',', ' ', ' ', ' ', ' ', '}'] <+: x := by
  intro x
  induction x using replaceCommaSpacesBrace.induct with
  | case1 rest ih =>
    rw [replaceCommaSpacesBrace.eq_1]
    intro hp
    rw [List.cons_prefix_cons] at hp
    exact absurd hp.1 (by decide)
  | case2 c rest h ih =>
    rw [replaceCommaSpacesBrace.eq_2 c rest h]
    intro hp
    rw [List.cons_prefix_cons] at hp
    obtain ⟨rfl, hp2⟩ := hp
    rcases replaceCommaSpacesBrace_prefix_brace rest hp2 with hl | hr
    · exact Or.inl (List.cons_prefix_cons.mpr ⟨rfl, hl⟩)
    · exact Or.inr (List.cons_prefix_cons.mpr ⟨rfl, hr⟩)
  | case3 =>
    intro h
    simp [replaceCommaSpacesBrace] at h

lemma replaceCommaSpacesBrace_prefix_p1 : ∀ x, [',', '\n', '}'] <+: replaceCommaSpacesBrace x →
    [',', '\n', '}'] <+: x ∨ [',', '\n', ',', ' ', ' ', ' ', ' ', '}'] <+: x := by
  intro x
  induction x using replaceCommaSpacesBrace.induct with
  | case1 rest ih =>
    rw [replaceCommaSpacesBrace.eq_1]
    intro hp
    rw [List.cons_prefix_cons] at hp
    exact absurd hp.1 (by decide)
  | case2 c rest h ih =>
    rw [replaceCommaSpacesBrace.eq_2 c rest h]
    intro hp
    rw [List.cons_prefix_cons] at hp
    obtain ⟨rfl, hp2⟩ := hp
    rcases replaceCommaSpacesBrace_prefix_nl_brace rest hp2 with hl | hr
    · exact Or.inl (List.cons_prefix_cons.mpr ⟨rfl, hl⟩)
    · exact Or.inr (List.cons_prefix_cons.mpr ⟨rfl, hr⟩)
  | case3 =>
    intro h
    simp [replaceCommaSpacesBrace] at h

lemma replaceCommaSpacesBrace_infix_p1 : ∀ x, ¬ [',', '\n', '}'] <:+: x → ¬ [',', '\n', ','] <:+: x →
    ¬ [',', '\n', '}'] <:+: replaceCommaSpacesBrace x := by
  intro x
  induction x using replaceCommaSpacesBrace.induct with
  | case1 rest ih =>
    intro h1 h2 hin
    rw [replaceCommaSpacesBrace.eq_1] at hin
    rcases List.infix_cons_iff.mp hin with hp | hin2
    · rw [List.cons_prefix_cons] at hp
      exact absurd hp.1 (by decide)
    have hsub : ∀ q : List Char, q <:+: rest → q <:+: ',' :: ' ' :: ' ' :: ' ' :: ' ' :: '}' :: rest :=
      fun q hq => List.infix_cons (List.infix_cons (List.infix_cons (List.infix_cons
        (List.infix_cons (List.infix_cons hq)))))
    exact ih (fun hq => h1 (hsub _ hq)) (fun hq => h2 (hsub _ hq)) hin2
  | case2 c rest h ih =>
    intro h1 h2 hin
    rw [replaceCommaSpacesBrace.eq_2 c rest h] at hin
    rcases List.infix_cons_iff.mp hin with hp | hin2
    · have : [',', '\n', '}'] <+: replaceCommaSpacesBrace (c :: rest) := by
        rw [replaceCommaSpacesBrace.eq_2 c rest h]; exact hp
      rcases replaceCommaSpacesBrace_prefix_p1 (c :: rest) this with hl | hr
      · exact h1 hl.isInfix
      · exact h2 ((show [',', '\n', ','] <+: [',', '\n', ',', ' ', ' ', ' ', ' ', '}'] by
          decide).trans hr).isInfix
    exact ih (fun hq => h1 (List.infix_cons hq)) (fun hq => h2 (List.infix_cons hq)) hin2
  | case3 =>
    intro _ _ hin
    simp [replaceCommaSpacesBrace] at hin

/-! ## Lemmas about the row mapper -/

lemma pair_cells_ok_length {es : List (List Char × JVal)} {code : List Char}
    {r : List (List Char)} (h : pair_cells es code = .ok r) : r.length = 2 := by
  unfold pair_cells at h
  split at h
  · exact absurd h (by simp)
  · split at h
    · exact absurd h (by simp)
    · cases h
      rfl

lemma mapExcept_pair_flatten_length {es : List (List Char × JVal)} :
    ∀ (codes : List (List Char)) (ps : List (List (List Char))),
    mapExcept (pair_cells es) codes = .ok ps → ps.flatten.length = 2 * codes.length := by
  intro codes
  induction codes with
  | nil =>
    intro ps h
    unfold mapExcept at h
    cases h
    simp
  | cons c cs ih =>
    intro ps h
    unfold mapExcept at h
    split at h
    · exact absurd h (by simp)
    · rename_i b hb
      split at h
      · exact absurd h (by simp)
      · rename_i bs hbs
        cases h
        simp [List.length_append, pair_cells_ok_length hb, ih bs hbs]
        omega

lemma row_cells_ok_length {es : List (List Char × JVal)} {cs : List (List Char)}
    (h : row_cells es = .ok cs) : cs.length = 20 := by
  unfold row_cells at h
  split at h
  · exact absurd h (by simp)
  · rename_i ps hps
    cases h
    exact mapExcept_pair_flatten_length FACILITIES ps hps

/-- Shape of every successful run of the row mapper: the input was present,
it parsed to an object, the twenty facility cells were all produced, and the
row is the timestamp in front of them. -/
lemma json_to_row_ok {now : PyDateTime} {x : Option (List Char)} {row : List (List Char)}
    (h : json_to_row now x = .ok row) :
    ∃ s es cs, x = some s ∧ loads s = some (.jobj es) ∧ row_cells es = .ok cs ∧
      row = isoformat ' ' now :: cs := by
  cases x with
  | none => simp [json_to_row] at h
  | some s =>
    rw [json_to_row] at h
    cases hv : loads s with
    | none =>
      rw [hv] at h
      exact absurd h (by simp)
    | some v =>
      rw [hv] at h
      cases v with
      | jobj es =>
        simp only [] at h
        cases hcs : row_cells es with
        | error e =>
          rw [hcs] at h
          exact absurd h (by simp)
        | ok cs =>
          rw [hcs] at h
          cases h
          exact ⟨s, es, cs, rfl, hv, hcs, rfl⟩
      | jnum n => exact absurd h (by simp)
      | jstr t => exact absurd h (by simp)
      | jbool b => exact absurd h (by simp)
      | jnull => exact absurd h (by simp)
      | jarr es => exact absurd h (by simp)

lemma isoformat_ne_nil (sep : Char) (d : PyDateTime) : isoformat sep d ≠ [] := by
  unfold isoformat
  simp

/-! ## Concrete inputs used by the claims -/

/-- A sample clock value for the concrete evaluations. -/
def sampleNow : PyDateTime := ⟨2021, 3, 14, 15, 9, 26, 535897⟩

/-- A second clock value, for the determinism claim. -/
def sampleNow2 : PyDateTime := ⟨2022, 12, 31, 23, 59, 59, 1⟩

/-- The text `{}`. -/
def emptyObjText : List Char := "\x7b\x7d".toList

/-- The text `{"ARC": {}}`: the facility code is present, its fields absent. -/
def arcMissingFieldsText : List Char := "\x7b\"ARC\": \x7b\x7d\x7d".toList

/-- The spec's round-trip input: single-quoted keys and a trailing comma. -/
def roundTripInput : List Char :=
  "\x7b\n  'ARC': \x7b\n    'count': 5,\n    'capacity': 10,\n  \x7d\n\x7d".toList

/-- A span whose normalized text is not strict JSON (`{oops}`). -/
def unparsableSpanInput : List Char := "\x7boops\x7d".toList

/-- A one-line object with its trailing comma directly before the brace. -/
def sameLineTrailingComma : List Char := "\x7b'a': 1,\x7d".toList

/-- An object whose trailing comma is followed by a newline and the brace. -/
def trailingCommaNewlineInput : List Char := "\x7b'a': 1,\n\x7d".toList

/-- A balanced span with single quotes: normalization changes its text. -/
def quotedSpanInput : List Char := "\x7b'x'\x7d".toList

/-! ## The claims -/

/-- C1: the claim says `json_to_row` is total over every parsed
mapping-of-mappings and maps each absent field to `""`. The code is not: for
`{"ARC": {}}` the facility code is present, so `update` stored a plain dict
and the `count` lookup raises `KeyError`; only a fully absent facility code
reaches the defaultdict factory and degrades to empty strings. The theorem
evaluates the mapper at the failing input and, for contrast, at the empty
object, where the claimed behavior does hold. -/
theorem C1_mapper_not_total :
    json_to_row sampleNow (some arcMissingFieldsText) = .error .keyError ∧
    json_to_row sampleNow (some emptyObjText)
      = .ok (isoformat ' ' sampleNow :: List.replicate 20 []) := by
  constructor
  · rfl
  · rfl

/-- C2: extraction yields the absent value (never an error) on the empty
input, on input with no braces, on input whose braces never rebalance by
end-of-string, and on input where a `}` comes before any `{` — in the last
case whatever text follows that `}`, since the scan stops there. -/
theorem C2_extraction_none_cases :
    scrape_occupancy_data [] = none ∧
    (∀ s : List Char, '{' ∉ s → '}' ∉ s → scrape_occupancy_data s = none) ∧
    (∀ a b : List Char, '{' ∉ a → '}' ∉ a →
      (∀ q ∈ b.inits, q.count '}' < 1 + q.count '{') →
      scrape_occupancy_data (a ++ '{' :: b) = none) ∧
    (∀ a r : List Char, '{' ∉ a → scrape_occupancy_data (a ++ '}' :: r) = none) := by
  refine ⟨rfl, ?_, ?_, ?_⟩
  · intro s h1 h2
    unfold scrape_occupancy_data
    have hskip := scrape_aux_skip s s [] 0 none 0
      (fun c hc => ⟨fun e => h1 (e ▸ hc), fun e => h2 (e ▸ hc)⟩)
    rw [List.append_nil] at hskip
    rw [hskip, scrape_aux]
  · intro a b ha1 ha2 hb
    unfold scrape_occupancy_data
    rw [scrape_aux_skip _ a _ 0 none 0
      (fun c hc => ⟨fun e => ha1 (e ▸ hc), fun e => ha2 (e ▸ hc)⟩)]
    rw [scrape_aux, if_pos rfl]
    exact scrape_aux_no_rebalance _ b _ _ 1 (by omega)
      (fun q hq => hb q ((List.mem_inits q b).mpr hq))
  · intro a r ha
    unfold scrape_occupancy_data
    exact scrape_aux_abort _ a r 0 ha

theorem C2_extraction_none_cases_witness :
    scrape_occupancy_data "no braces at all".toList = none ∧
    scrape_occupancy_data ("var x = ".toList ++ '{' :: "'ARC': 1, ".toList) = none ∧
    scrape_occupancy_data ("x = ".toList ++ '}' :: " rest".toList) = none :=
  ⟨C2_extraction_none_cases.2.1 _ (by decide) (by decide),
   C2_extraction_none_cases.2.2.1 "var x = ".toList "'ARC': 1, ".toList
     (by decide) (by decide) (by decide),
   C2_extraction_none_cases.2.2.2 "x = ".toList " rest".toList (by decide)⟩

/-- C3 counterexample: the claim says no comma directly preceding a closing
brace remains in the normalized text of any extracted span. For the span
`{'a': 1,}` the normalizer (applied by the extractor) yields `{"a": 1,}`,
which still contains a comma immediately before the brace: the two
replacement passes only target comma-newline-brace and
comma-four-spaces-brace. -/
theorem C3_comma_before_brace_survives :
    scrape_occupancy_data sameLineTrailingComma = some "\x7b\"a\": 1,\x7d".toList ∧
    [',', '}'] <:+: "\x7b\"a\": 1,\x7d".toList := by
  constructor
  · rfl
  · decide

/-- C3 as amended: after the per-line trim and quote substitution, provided
the joined text holds no two adjacent commas and no comma-newline-comma
sequence (true of well-formed object literals), the replacement passes remove
every comma immediately followed by a newline and a closing brace: no
comma-newline-brace sequence remains in the normalized text. A comma
preceding a brace in other configurations (`,}` on one line) survives, and a
replacement can re-create the pattern when the side conditions fail. -/
theorem C3_trailing_comma_newline_removed :
    ∀ s : List Char,
      ¬ [',', ','] <:+: joinedLines s →
      ¬ [',', '\n', ','] <:+: joinedLines s →
      ¬ [',', '\n', '}'] <:+: format_scraped_json s := by
  intro s h1 h2
  unfold format_scraped_json
  exact replaceCommaSpacesBrace_infix_p1 _ (replaceCommaNlBrace_infix_p1 _ h1)
    (replaceCommaNlBrace_infix_cnc _ h2)

theorem C3_trailing_comma_newline_removed_witness :
    ¬ [',', '\n', '}'] <:+: format_scraped_json trailingCommaNewlineInput :=
  C3_trailing_comma_newline_removed trailingCommaNewlineInput (by decide) (by decide)

/-- C4 counterexample: the claim says the extractor returns the balanced span
character for character as it appears in the input. On `{'x'}` the whole
input is the balanced span, yet the function returns the quote-substituted
text `{"x"}`, because it applies `format_scraped_json` before returning. -/
theorem C4_not_raw_substring :
    scrape_occupancy_data quotedSpanInput = some "\x7b\"x\"\x7d".toList ∧
    scrape_occupancy_data quotedSpanInput ≠ some quotedSpanInput := by
  constructor
  · rfl
  · decide

/-- C4 as amended: for every input holding a balanced top-level span, the
extractor returns `format_scraped_json` of the substring from the first `{`
to its matching `}` inclusive (the raw substring only when normalization
fixes no irregularity in it). -/
theorem C4_returns_formatted_span :
    ∀ a b r : List Char, '{' ∉ a → '}' ∉ a →
      (∀ q ∈ b.inits, q.count '}' < 1 + q.count '{') →
      b.count '{' = b.count '}' →
      scrape_occupancy_data (a ++ '{' :: (b ++ '}' :: r))
        = some (format_scraped_json ('{' :: (b ++ ['}']))) := by
  intro a b r ha1 ha2 hpre hbal
  unfold scrape_occupancy_data
  rw [scrape_aux_skip _ a _ 0 none 0
    (fun c hc => ⟨fun e => ha1 (e ▸ hc), fun e => ha2 (e ▸ hc)⟩)]
  rw [scrape_aux, if_pos rfl]
  simp only [Option.getD_none]
  have hs : ∀ q, q <+: b → q.count '}' < 1 + q.count '{' :=
    fun q hq => hpre q ((List.mem_inits q b).mpr hq)
  have hbal2 : (1 : Nat) + b.count '{' = 1 + b.count '}' := by omega
  rw [scrape_aux_success (a ++ '{' :: (b ++ '}' :: r)) b r (0 + a.length + 1)
    (0 + a.length) 1 (by omega) hs hbal2]
  congr 1
  have harith : 0 + a.length + 1 + b.length + 1 - (0 + a.length) = b.length + 1 + 1 := by
    omega
  rw [harith, Nat.zero_add,
    show a ++ '{' :: (b ++ '}' :: r) = a ++ ('{' :: (b ++ '}' :: r)) from rfl,
    List.drop_left, List.take_succ_cons]
  congr 1
  rw [show b.length + 1 = b.length + 1 from rfl, List.take_append 1]
  simp

theorem C4_returns_formatted_span_witness :
    scrape_occupancy_data ("x = ".toList ++ '{' :: ("'a': 1".toList ++ '}' :: ";".toList))
      = some (format_scraped_json ('{' :: ("'a': 1".toList ++ ['}']))) :=
  C4_returns_formatted_span "x = ".toList "'a': 1".toList ";".toList
    (by decide) (by decide) (by decide) (by decide)

/-- C5: extraction depends only on the first balanced top-level span: any
text appended after an input on which it succeeds, balanced braces included,
leaves the result unchanged; and the spec's example extracts exactly the
first span. -/
theorem C5_first_span_only :
    (∀ s t res : List Char, scrape_occupancy_data s = some res →
      scrape_occupancy_data (s ++ t) = some res) ∧
    scrape_occupancy_data "\x7ba\x7bb\x7dc\x7dtrailing\x7bd\x7d".toList
      = some "\x7ba\x7bb\x7dc\x7d".toList := by
  constructor
  · intro s t res h
    unfold scrape_occupancy_data at h ⊢
    exact scrape_aux_append s t s 0 none 0 res (by simp)
      (fun v hv => Option.noConfusion hv) h
  · rfl

theorem C5_first_span_only_witness :
    scrape_occupancy_data ("\x7b\x7d".toList ++ "!\x7bx\x7d".toList)
      = some "\x7b\x7d".toList :=
  C5_first_span_only.1 "\x7b\x7d".toList "!\x7bx\x7d".toList "\x7b\x7d".toList (by rfl)

/-- C6: whenever the row mapper returns a row, the row has exactly 21
entries; mapping the empty object gives the timestamp followed by twenty
empty strings, and the timestamp slot is never the empty string. -/
theorem C6_row_length_21 :
    (∀ (now : PyDateTime) (x : Option (List Char)) (row : List (List Char)),
      json_to_row now x = .ok row → row.length = 21) ∧
    (∀ now : PyDateTime,
      json_to_row now (some emptyObjText)
        = .ok (isoformat ' ' now :: List.replicate 20 []) ∧
      isoformat ' ' now ≠ []) := by
  constructor
  · intro now x row h
    obtain ⟨s, es, cs, _, _, hcs, rfl⟩ := json_to_row_ok h
    simp [row_cells_ok_length hcs]
  · intro now
    exact ⟨rfl, isoformat_ne_nil ' ' now⟩

theorem C6_row_length_21_witness :
    (isoformat ' ' sampleNow :: List.replicate 20 ([] : List Char)).length = 21 :=
  C6_row_length_21.1 sampleNow (some emptyObjText)
    (isoformat ' ' sampleNow :: List.replicate 20 []) (by rfl)

/-- C7: whenever the extractor produced a span but its normalized text fails
strict-JSON parsing, the pipeline surfaces the parse failure as an error — it
never swallows it into a row. -/
theorem C7_parse_failure_propagates :
    ∀ (now : PyDateTime) (s t : List Char),
      scrape_occupancy_data s = some t → loads t = none →
      scrape_script now s = .error .jsonDecodeError := by
  intro now s t h1 h2
  unfold scrape_script
  rw [h1, json_to_row, h2]

theorem C7_parse_failure_propagates_witness :
    scrape_script sampleNow unparsableSpanInput = .error .jsonDecodeError :=
  C7_parse_failure_propagates sampleNow unparsableSpanInput "\x7boops\x7d".toList
    (by rfl) (by rfl)

/-- C8: normalizing the spec's round-trip input and strict-JSON-parsing the
result succeeds and yields exactly the mapping
`{"ARC": {"count": 5, "capacity": 10}}`. -/
theorem C8_roundtrip_example :
    loads (format_scraped_json roundTripInput)
      = some (.jobj [("ARC".toList,
          .jobj [("count".toList, .jnum 5), ("capacity".toList, .jnum 10)])]) := by
  rfl

/-- C9: the pipeline is deterministic except for the clock: two runs on the
same script text that both produce rows agree on every slot after index 0,
and slot 0 of each row is that run's timestamp. -/
theorem C9_deterministic_except_timestamp :
    ∀ (now1 now2 : PyDateTime) (s : List Char) (r1 r2 : List (List Char)),
      scrape_script now1 s = .ok r1 → scrape_script now2 s = .ok r2 →
      r1.tail = r2.tail ∧ r1.head? = some (isoformat ' ' now1) ∧
      r2.head? = some (isoformat ' ' now2) := by
  intro n1 n2 s r1 r2 h1 h2
  unfold scrape_script at h1 h2
  obtain ⟨s1, es1, cs1, hx1, hl1, hc1, rfl⟩ := json_to_row_ok h1
  obtain ⟨s2, es2, cs2, hx2, hl2, hc2, rfl⟩ := json_to_row_ok h2
  rw [hx1] at hx2
  cases hx2
  rw [hl1] at hl2
  cases hl2
  rw [hc1] at hc2
  cases hc2
  exact ⟨rfl, rfl, rfl⟩

theorem C9_deterministic_except_timestamp_witness :
    (isoformat ' ' sampleNow :: List.replicate 20 ([] : List Char)).tail
        = (isoformat ' ' sampleNow2 :: List.replicate 20 ([] : List Char)).tail ∧
    (isoformat ' ' sampleNow :: List.replicate 20 ([] : List Char)).head?
        = some (isoformat ' ' sampleNow) ∧
    (isoformat ' ' sampleNow2 :: List.replicate 20 ([] : List Char)).head?
        = some (isoformat ' ' sampleNow2) :=
  C9_deterministic_except_timestamp sampleNow sampleNow2 emptyObjText
    (isoformat ' ' sampleNow :: List.replicate 20 [])
    (isoformat ' ' sampleNow2 :: List.replicate 20 []) (by rfl) (by rfl)

/-- C10: when extraction finds no balanced span, the pipeline does not return
an absent result: `scrape_script` passes `None` into `json_to_row`, whose
`json.loads` call raises a `TypeError`-class failure — a class distinct from
the strict-JSON parse failure. -/
theorem C10_span_not_found_raises :
    ∀ (now : PyDateTime) (s : List Char),
      scrape_occupancy_data s = none →
      scrape_script now s = .error .typeError ∧
        PyErr.typeError ≠ PyErr.jsonDecodeError := by
  intro now s h
  refine ⟨?_, by decide⟩
  unfold scrape_script
  rw [h]
  rfl

theorem C10_span_not_found_raises_witness :
    scrape_script sampleNow "no data here".toList = .error .typeError ∧
      PyErr.typeError ≠ PyErr.jsonDecodeError :=
  C10_span_not_found_raises sampleNow "no data here".toList (by rfl)

end Cliffhangar

